import Mathlib

/-! LibScout: a shallow embedding of `main.go`

The program scrapes a documentation page for links to GitHub repositories,
asks the GitHub API a handful of questions about each repository and prints a
Markdown table.  Everything the program does with the outside world goes
through three handles, which the embedding takes as explicit parameters:

* `Web`: `http.Get` followed by `goquery.NewDocumentFromReader`;
* `Client`: the four `go-github` calls used by `getRepoInfo`;
* the standard output, modelled as the list of chunks written so far.

Go strings are modelled by `String` (sequences of code points); the only
separators the program looks for are the ASCII characters `/` and `,`, which
never occur inside a multi-byte UTF-8 sequence.  Go `int` values are modelled by
`Int`: the only arithmetic in the program is the addition of slice lengths in
the commit-pagination loop, whose sum stays far below `2 ^ 63` (a slice of
pointers cannot have `2 ^ 60` elements), and the only place where the 64-bit
range is observable is `strconv.Atoi`, whose range check is modelled
explicitly.
A Go `error` is an `Option Error` (`none` is `nil`), and a Go result pair
`(T, error)` is a Lean pair.
-/

namespace LibScout

/-! ## Data model -/

/-- A Go `error` value that is not `nil`. -/
structure Error where
  msg : String
  deriving DecidableEq, Repr

/-- The `RepoInfo` struct of `main.go`; the defaults are Go's zero values. -/
structure RepoInfo where
  Owner : String := ""
  Repo : String := ""
  LatestCommitTime : String := ""
  TotalCommits : Int := 0
  Stars : Int := 0
  Forks : Int := 0
  Watchers : Int := 0
  UsedBy : Int := 0
  Contributors : Int := 0
  PullRequests : Int := 0
  deriving DecidableEq, Repr

/-! ## The fragment of the Go standard library used by the program -/

/-- Go's `strings.TrimPrefix`: `s` without the leading `pre` when it has it,
`s` unchanged otherwise. -/
def TrimPrefix (s pre : String) : String :=
  if pre.data.isPrefixOf s.data then String.mk (s.data.drop pre.data.length) else s

/-- The pieces of a character list between the occurrences of `sep`; there is
always one piece more than there are separators. -/
def splitChars (sep : Char) : List Char → List (List Char)
  | [] => [[]]
  | c :: cs =>
    if c = sep then [] :: splitChars sep cs
    else
      match splitChars sep cs with
      | [] => [[c]]
      | p :: ps => (c :: p) :: ps

/-- Go's `strings.Split(s, sep)` for a separator of one character. -/
def Split (s : String) (sep : Char) : List String :=
  (splitChars sep s.data).map String.mk

/-- Go's `strings.ReplaceAll(s, old, new)` for an `old` of one character. -/
def ReplaceAll (s : String) (old : Char) (new : String) : String :=
  String.mk (s.data.flatMap (fun c => if c = old then new.data else [c]))

/-- Go's `unicode.IsSpace`. -/
def isSpace (c : Char) : Bool :=
  c = '\t' || c = '\n' || c.toNat = 0x0B || c.toNat = 0x0C || c = '\r' || c = ' '
    || c.toNat = 0x85 || c.toNat = 0xA0 || c.toNat = 0x1680
    || (0x2000 ≤ c.toNat && c.toNat ≤ 0x200A)
    || c.toNat = 0x2028 || c.toNat = 0x2029 || c.toNat = 0x202F
    || c.toNat = 0x205F || c.toNat = 0x3000

/-- Go's `strings.TrimSpace`: all leading and trailing white space removed. -/
def TrimSpace (s : String) : String :=
  String.mk (((s.data.dropWhile isSpace).reverse.dropWhile isSpace).reverse)

/-- The value of a character list read as a decimal numeral. -/
def decimalValue (ds : List Char) : Nat :=
  ds.foldl (fun n ch => n * 10 + (ch.toNat - '0'.toNat)) 0

/-- Go's `strconv.Atoi` on a 64-bit platform: an optional sign, then one or
more decimal digits, the value within the range of `int`. -/
def Atoi (s : String) : Int × Option Error :=
  match s.data with
  | [] => (0, some ⟨"invalid syntax"⟩)
  | c :: rest =>
    let digits := if c = '+' ∨ c = '-' then rest else c :: rest
    if digits = [] ∨ ¬ digits.all Char.isDigit then (0, some ⟨"invalid syntax"⟩)
    else
      let un := decimalValue digits
      if c = '-' then
        if 2 ^ 63 < un then (-(2 ^ 63), some ⟨"value out of range"⟩)
        else (-(un : Int), none)
      else
        if 2 ^ 63 ≤ un then (2 ^ 63 - 1, some ⟨"value out of range"⟩)
        else ((un : Int), none)

/-! ## The outside world -/

/-- What the program reads off a parsed HTML page: the results of the two
selector queries it makes. -/
structure Document where
  /-- The `href` values of the elements selected by
  `a[href^='https://github.com/']`, in document order. -/
  githubHrefs : List String
  /-- The text of the selection `a[href$='/network/dependents'] span.Counter`,
  empty when nothing is selected. -/
  dependentsCounterText : String

/-- The web as the program sees it. -/
structure Web where
  /-- The call `http.Get(url)`: the response body, or the transport error. -/
  httpGet : String → Except Error String
  /-- The call `goquery.NewDocumentFromReader(resp.Body)`. -/
  newDocument : String → Except Error Document

/-! ## Link extractor -/

/-- The prefix stripped from every selected `href`. -/
def githubPrefix : String := "https://github.com/"

/-- The callback passed to `Each` in `scrapeGitHubRepos`, with the captured
slice `repos` made explicit. -/
def eachAnchor (repos : List RepoInfo) (href : String) : List RepoInfo :=
  let parts := Split (TrimPrefix href githubPrefix) '/'
  if 2 ≤ parts.length then
    repos ++ [{ Owner := parts.getD 0 "", Repo := parts.getD 1 "" }]
  else repos

/-- The function `scrapeGitHubRepos` of `main.go`. -/
def scrapeGitHubRepos (web : Web) (url : String) : List RepoInfo × Option Error :=
  match web.httpGet url with
  | .error err => ([], some err)
  | .ok body =>
    match web.newDocument body with
    | .error err => ([], some err)
    | .ok doc => (doc.githubHrefs.foldl eachAnchor [], none)

/-! ## Vocabulary of the statements about the link extractor -/

/-- The `/`-separated segments of an `href` after the GitHub prefix. -/
def pathSegments (href : String) : List String :=
  Split (TrimPrefix href githubPrefix) '/'

/-- An `href` with at least two path segments. -/
def hasOwnerAndRepo (href : String) : Bool :=
  decide (2 ≤ (pathSegments href).length)

/-- The identifier named by an `href`: its first two path segments. -/
def identifierOf (href : String) : RepoInfo :=
  { Owner := (pathSegments href).getD 0 "", Repo := (pathSegments href).getD 1 "" }

/-- A web whose every page is the given document. -/
def constWeb (doc : Document) : Web :=
  { httpGet := fun _ => .ok "", newDocument := fun _ => .ok doc }

/-! ## Formatting: the fragment of `fmt` and `time` used by the program -/

/-- The verb `%d` applied to an `int`: decimal digits, with a leading `-` for a
negative number. -/
def formatInt : Int → String
  | Int.ofNat n => String.mk (Nat.toDigits 10 n)
  | Int.negSucc n => String.mk ('-' :: Nat.toDigits 10 (n + 1))

/-- An operand of `Sprintf`. -/
inductive Arg where
  | str (s : String)
  | int (i : Int)

/-- A piece of a format string: a character copied to the output, or one of
the verbs `%s` and `%d`. -/
inductive Piece where
  | lit (c : Char)
  | verbS
  | verbD
  deriving DecidableEq, Repr

/-- Reads a format string made of plain characters, `%s`, `%d` and `%%`; any
other use of `%` is outside the modelled fragment. -/
def parseFormat : List Char → Option (List Piece)
  | [] => some []
  | c :: tl =>
    if c = '%' then
      match tl with
      | [] => none
      | v :: rest =>
        if v = 's' then (parseFormat rest).map (fun ps => Piece.verbS :: ps)
        else if v = 'd' then (parseFormat rest).map (fun ps => Piece.verbD :: ps)
        else if v = '%' then (parseFormat rest).map (fun ps => Piece.lit '%' :: ps)
        else none
    else (parseFormat tl).map (fun ps => Piece.lit c :: ps)

/-- Fills the verbs of a parsed format with the operands, in order: `%s` takes
a string, `%d` an `int`; a missing, extra or ill-typed operand is outside the
modelled fragment. -/
def render : List Piece → List Arg → Option (List Char)
  | [], [] => some []
  | [], _ :: _ => none
  | Piece.lit c :: ps, args => (render ps args).map (fun out => c :: out)
  | Piece.verbS :: ps, Arg.str s :: args => (render ps args).map (fun out => s.data ++ out)
  | Piece.verbD :: ps, Arg.int i :: args =>
    (render ps args).map (fun out => (formatInt i).data ++ out)
  | Piece.verbS :: _, _ => none
  | Piece.verbD :: _, _ => none

/-- Go's `fmt.Sprintf` on the modelled fragment; `none` outside it. -/
def Sprintf (format : String) (args : List Arg) : Option String :=
  ((parseFormat format.data).bind (fun ps => render ps args)).map String.mk

/-- Go's `fmt.Println` of one string, on a standard output modelled as the list
of chunks written so far. -/
def Println (out : List String) (s : String) : List String :=
  out ++ [s ++ "\n"]

/-- Go's `fmt.Printf`, on the same model of the standard output. -/
def Printf (out : List String) (format : String) (args : List Arg) : Option (List String) :=
  (Sprintf format args).map (fun s => out ++ [s])

/-- The calendar date of a `time.Time` in its own location. -/
structure Time where
  year : Nat
  month : Nat
  day : Nat
  deriving DecidableEq, Repr

/-- Go's zero `time.Time`, January 1 of year 1. -/
def Time.zero : Time := { year := 1, month := 1, day := 1 }

/-- A number in decimal, padded with zeros on the left to the given width. -/
def padZero (width n : Nat) : List Char :=
  List.replicate (width - (Nat.toDigits 10 n).length) '0' ++ Nat.toDigits 10 n

/-- Go's `t.Format("2006-01-02")`. -/
def Time.Format (t : Time) : String :=
  String.mk (padZero 4 t.year ++ '-' :: padZero 2 t.month ++ '-' :: padZero 2 t.day)

/-! ## The GitHub API client -/

/-- The part of `github.Repository` that the program reads; `none` is a nil
pointer. -/
structure Repository where
  StargazersCount : Option Int
  ForksCount : Option Int
  SubscribersCount : Option Int

def Repository.GetStargazersCount (r : Repository) : Int := r.StargazersCount.getD 0

def Repository.GetForksCount (r : Repository) : Int := r.ForksCount.getD 0

def Repository.GetSubscribersCount (r : Repository) : Int := r.SubscribersCount.getD 0

/-- The part of `github.RepositoryCommit` that the program reads: the author
date of the commit, `none` when the author or the date is nil (the commit
object itself is taken to be present, as it is in every answer of the API). -/
structure RepositoryCommit where
  authorDate : Option Time

/-- The chain `c.Commit.Author.GetDate()`: the zero time when there is no date. -/
def RepositoryCommit.GetDate (c : RepositoryCommit) : Time := c.authorDate.getD Time.zero

structure Contributor where
  ID : Int

structure PullRequest where
  Number : Int

/-- The part of `github.Response` that the program reads. -/
structure Response where
  NextPage : Nat

/-- The four calls the program makes on a `github.Client`.  `ListCommits` takes
the owner, the repository, `PerPage` and `Page`. -/
structure Client where
  Get : String → String → Except Error Repository
  ListCommits : String → String → Nat → Nat → Except Error (List RepositoryCommit × Response)
  ListContributors : String → String → Except Error (List Contributor)
  ListPullRequests : String → String → Except Error (List PullRequest)

/-! ## Repository info fetcher -/

/-- The function `scrapeUsedByCount` of `main.go`. -/
def scrapeUsedByCount (web : Web) (url : String) : Int × Option Error :=
  match web.httpGet url with
  | .error err => (0, some err)
  | .ok body =>
    match web.newDocument body with
    | .error err => (0, some err)
    | .ok doc =>
      let usedByText := doc.dependentsCounterText
      let usedByText := TrimSpace (ReplaceAll usedByText ',' "")
      if usedByText = "" then (0, none)
      else
        match Atoi usedByText with
        | (_, some err) => (0, some err)
        | (usedBy, none) => (usedBy, none)

/-- The `for` loop of `getRepoInfo` that adds up the commits of every page.
`listPage` is `ListCommits` at `PerPage = 100`, `page` is `opt.Page`.  The loop
runs as long as the upstream names a next page, so the model is given a bound
on the number of iterations: `none` means that the bound was reached. -/
def commitLoop (listPage : Nat → Except Error (List RepositoryCommit × Response)) :
    Nat → Nat → Int → Option (Except Error Int)
  | 0, _, _ => none
  | fuel + 1, page, totalCommits =>
    match listPage page with
    | .error err => some (.error err)
    | .ok (commits, resp) =>
      let totalCommits := totalCommits + (commits.length : Int)
      if resp.NextPage = 0 then some (.ok totalCommits)
      else commitLoop listPage fuel resp.NextPage totalCommits

/-- The function `getRepoInfo` of `main.go`.  The result is `none` when the
pagination loop does not finish within `fuel` iterations. -/
def getRepoInfo (fuel : Nat) (web : Web) (client : Client) (owner repo : String) :
    Option (RepoInfo × Option Error) :=
  let info : RepoInfo := { Owner := owner, Repo := repo }
  match client.Get owner repo with
  | .error err => some (info, some err)
  | .ok repoData =>
    match client.ListCommits owner repo 1 0 with
    | .error err => some (info, some err)
    | .ok ([], _) => some (info, none)
    | .ok (commit :: _, _) =>
      let info := { info with LatestCommitTime := commit.GetDate.Format }
      match commitLoop (client.ListCommits owner repo 100) fuel 0 0 with
      | none => none
      | some (.error err) => some (info, some err)
      | some (.ok totalCommits) =>
        let info := { info with TotalCommits := totalCommits }
        match client.ListContributors owner repo with
        | .error err => some (info, some err)
        | .ok contributors =>
          match client.ListPullRequests owner repo with
          | .error err => some (info, some err)
          | .ok prs =>
            match Sprintf "https://github.com/%s/%s" [Arg.str owner, Arg.str repo] with
            | none => none
            | some url =>
              let usedBy :=
                match scrapeUsedByCount web url with
                | (_, some _) => 0
                | (usedBy, none) => usedBy
              some ({ info with
                        Stars := repoData.GetStargazersCount
                        Forks := repoData.GetForksCount
                        Watchers := repoData.GetSubscribersCount
                        UsedBy := usedBy
                        Contributors := (contributors.length : Int)
                        PullRequests := (prs.length : Int) }, none)

/-! ## Table renderer -/

def tableHeader : String :=
  "| Repository | Latest Commit | Total Commits | Stars | Forks | Watchers | Used by | Contributors | Pull Requests |"

def tableSeparator : String :=
  "|------------|---------------|---------------|-------|-------|----------|---------|--------------|---------------|"

def rowFormat : String :=
  "| [%s/%s](https://github.com/%s/%s) | %s | %d | %d | %d | %d | %d | %d | %d |\n"

/-- The operands of the `Printf` call of `printMarkdownTable`. -/
def rowArgs (info : RepoInfo) : List Arg :=
  [Arg.str info.Owner, Arg.str info.Repo, Arg.str info.Owner, Arg.str info.Repo,
   Arg.str info.LatestCommitTime, Arg.int info.TotalCommits, Arg.int info.Stars,
   Arg.int info.Forks, Arg.int info.Watchers, Arg.int info.UsedBy,
   Arg.int info.Contributors, Arg.int info.PullRequests]

/-- The function `printMarkdownTable` of `main.go`: the chunks it writes to the
standard output, one per call of `Println` or `Printf`. -/
def printMarkdownTable (repoInfos : List RepoInfo) : Option (List String) :=
  let out := Println [] tableHeader
  let out := Println out tableSeparator
  repoInfos.foldlM (fun out info => Printf out rowFormat (rowArgs info)) out

/-! ## Main loop -/

/-- The accumulation loop of `main`: one call of `getRepoInfo` per identifier;
an error is logged and the identifier skipped. -/
def mainLoop (fuel : Nat) (web : Web) (client : Client) (repos : List RepoInfo) :
    Option (List RepoInfo) :=
  repos.foldlM
    (fun repoInfos repo =>
      match getRepoInfo fuel web client repo.Owner repo.Repo with
      | none => none
      | some (_, some _) => some repoInfos
      | some (info, none) => some (repoInfos ++ [info]))
    []

/-- The function `main` of `main.go` after the client is built: the fatal
error of `log.Fatalf`, or the chunks written to the standard output. -/
def main (fuel : Nat) (web : Web) (client : Client) : Option (Except Error (List String)) :=
  match scrapeGitHubRepos web "https://core.telegram.org/bots/samples" with
  | (_, some err) => some (.error err)
  | (repos, none) =>
    match mainLoop fuel web client repos with
    | none => none
    | some repoInfos => (printMarkdownTable repoInfos).map Except.ok

/-! ## Concrete worlds used to exercise the statements -/

/-- A page with five GitHub links: one without a repository, one bare host,
and one repeated. -/
def sampleDoc : Document :=
  { githubHrefs := ["https://github.com/alice/bot", "https://github.com/owner",
                    "https://github.com/bob/tool/tree/main", "https://github.com/",
                    "https://github.com/alice/bot"]
    dependentsCounterText := "" }

/-- A client for a repository with metadata, one recent commit, three pages of
commits (2, 1 and 0 commits, chained 0 → 2 → 3 → end), two contributors and
one pull request. -/
def sampleClient : Client :=
  { Get := fun _ _ => .ok { StargazersCount := some 5, ForksCount := some 2,
                            SubscribersCount := some 3 }
    ListCommits := fun _ _ perPage page =>
      if perPage = 1 then .ok ([⟨some ⟨2024, 5, 17⟩⟩], ⟨2⟩)
      else if page = 0 then .ok ([⟨none⟩, ⟨none⟩], ⟨2⟩)
      else if page = 2 then .ok ([⟨none⟩], ⟨3⟩)
      else if page = 3 then .ok ([], ⟨0⟩)
      else .error ⟨"no such page"⟩
    ListContributors := fun _ _ => .ok [⟨1⟩, ⟨2⟩]
    ListPullRequests := fun _ _ => .ok [⟨7⟩] }

/-- The pages requested from `sampleClient`, in order. -/
def samplePageAt : Nat → Nat
  | 0 => 0
  | 1 => 2
  | 2 => 3
  | _ => 0

/-- The commits `sampleClient` serves at each request. -/
def sampleCommitsAt : Nat → List RepositoryCommit
  | 0 => [⟨none⟩, ⟨none⟩]
  | 1 => [⟨none⟩]
  | _ => []

/-- The client `sampleClient`, except that the repository has no commit. -/
def emptyCommitsClient : Client :=
  { sampleClient with ListCommits := fun _ _ _ _ => .ok ([], ⟨0⟩) }

/-- The client `sampleClient`, except that the metadata call fails for the
owner `bob`. -/
def flakyClient : Client :=
  { sampleClient with
    Get := fun owner repo =>
      if owner = "bob" then .error ⟨"404 Not Found"⟩ else sampleClient.Get owner repo }

/-- The client `sampleClient`, except that for the owner `bob` the request for
the second page of commits (page 2) fails. -/
def brokenPageClient : Client :=
  { sampleClient with
    ListCommits := fun owner repo perPage page =>
      if owner = "bob" ∧ perPage = 100 ∧ page = 2 then .error ⟨"502 Bad Gateway"⟩
      else sampleClient.ListCommits owner repo perPage page }

/-- A web whose every page shows the given text in the dependents counter. -/
def counterWeb (text : String) : Web :=
  constWeb { githubHrefs := [], dependentsCounterText := text }

/-! ## Vocabulary of the statements about the used-by count -/

/-- The counter text as `scrapeUsedByCount` hands it to `Atoi`: commas removed,
then surrounding white space removed. -/
def cleanCounter (text : String) : String :=
  TrimSpace (ReplaceAll text ',' "")

/-- The used-by count cannot be read from the page at `url`: the page cannot be
fetched or parsed, the counter is absent, or its text is not an integer. -/
def UsedByUnavailable (web : Web) (url : String) : Prop :=
  match web.httpGet url with
  | .error _ => True
  | .ok body =>
    match web.newDocument body with
    | .error _ => True
    | .ok doc =>
      doc.dependentsCounterText = "" ∨ (Atoi (cleanCounter doc.dependentsCounterText)).2 ≠ none

/-- The address of the public page of a repository. -/
def repoPage (owner repo : String) : String :=
  "https://github.com/" ++ owner ++ "/" ++ repo

/-- The record `getRepoInfo` builds from `sampleClient` when the dependents
counter reads `1,234`. -/
def sampleRecord : RepoInfo :=
  { Owner := "alice", Repo := "bot", LatestCommitTime := "2024-05-17", TotalCommits := 3,
    Stars := 5, Forks := 2, Watchers := 3, UsedBy := 1234, Contributors := 2,
    PullRequests := 1 }

/-! ## Vocabulary of the statements about the main loop and the table -/

/-- The record an identifier contributes to the table: the one returned by
`getRepoInfo` when it returns no error, none otherwise. -/
def fetchedRecord (fuel : Nat) (web : Web) (client : Client) (repo : RepoInfo) :
    Option RepoInfo :=
  match getRepoInfo fuel web client repo.Owner repo.Repo with
  | some (info, none) => some info
  | _ => none

/-- One of the metadata, commit, contributor or pull-request calls that
`getRepoInfo` makes for the repository answers an error.  Every case is stated
by the answers of the upstream alone: the calls made before the failing one
are answered, and the failing one answers `err`.  For the pages of commits,
`pg j` is the page of the `j`-th request (`pg 0 = 0`, then the page named by
the previous answer) and `cs j` the commits it serves; the bound `k < fuel`
says that the requests fit in the bound given to the pagination loop. -/
inductive FetchFails (fuel : Nat) (client : Client) (owner repo : String) : Prop where
  /-- The metadata call fails. -/
  | metadata (err : Error)
      (hmeta : client.Get owner repo = .error err) :
      FetchFails fuel client owner repo
  /-- The listing of the latest commit fails. -/
  | latestCommit (repoData : Repository) (err : Error)
      (hmeta : client.Get owner repo = .ok repoData)
      (hfirst : client.ListCommits owner repo 1 0 = .error err) :
      FetchFails fuel client owner repo
  /-- After `k` pages of commits, each naming a next page, the request for the
  next page fails. -/
  | commitPage (repoData : Repository) (first : RepositoryCommit)
      (rest : List RepositoryCommit) (r0 : Response)
      (pg : Nat → Nat) (cs : Nat → List RepositoryCommit) (k : Nat) (err : Error)
      (hmeta : client.Get owner repo = .ok repoData)
      (hfirst : client.ListCommits owner repo 1 0 = .ok (first :: rest, r0))
      (hstart : pg 0 = 0)
      (hpages : ∀ j, j < k →
        client.ListCommits owner repo 100 (pg j) = .ok (cs j, ⟨pg (j + 1)⟩))
      (hnext : ∀ j, j < k → pg (j + 1) ≠ 0)
      (hfail : client.ListCommits owner repo 100 (pg k) = .error err)
      (hfuel : k < fuel) :
      FetchFails fuel client owner repo
  /-- All `k + 1` pages of commits are served and the contributor call fails. -/
  | contributors (repoData : Repository) (first : RepositoryCommit)
      (rest : List RepositoryCommit) (r0 : Response)
      (pg : Nat → Nat) (cs : Nat → List RepositoryCommit) (k : Nat) (err : Error)
      (hmeta : client.Get owner repo = .ok repoData)
      (hfirst : client.ListCommits owner repo 1 0 = .ok (first :: rest, r0))
      (hstart : pg 0 = 0)
      (hpages : ∀ j, j ≤ k →
        client.ListCommits owner repo 100 (pg j) = .ok (cs j, ⟨pg (j + 1)⟩))
      (hnext : ∀ j, j < k → pg (j + 1) ≠ 0)
      (hlast : pg (k + 1) = 0)
      (hfuel : k < fuel)
      (hcontrib : client.ListContributors owner repo = .error err) :
      FetchFails fuel client owner repo
  /-- All `k + 1` pages of commits and the contributors are served and the
  pull-request call fails. -/
  | pullRequests (repoData : Repository) (first : RepositoryCommit)
      (rest : List RepositoryCommit) (r0 : Response)
      (pg : Nat → Nat) (cs : Nat → List RepositoryCommit) (k : Nat)
      (contributors : List Contributor) (err : Error)
      (hmeta : client.Get owner repo = .ok repoData)
      (hfirst : client.ListCommits owner repo 1 0 = .ok (first :: rest, r0))
      (hstart : pg 0 = 0)
      (hpages : ∀ j, j ≤ k →
        client.ListCommits owner repo 100 (pg j) = .ok (cs j, ⟨pg (j + 1)⟩))
      (hnext : ∀ j, j < k → pg (j + 1) ≠ 0)
      (hlast : pg (k + 1) = 0)
      (hfuel : k < fuel)
      (hcontrib : client.ListContributors owner repo = .ok contributors)
      (hprs : client.ListPullRequests owner repo = .error err) :
      FetchFails fuel client owner repo

/-- The address of the page scanned by `main`. -/
def samplesPage : String := "https://core.telegram.org/bots/samples"

/-- The row of the table for a record, written out. -/
def rowText (info : RepoInfo) : String :=
  "| [" ++ info.Owner ++ "/" ++ info.Repo ++ "](https://github.com/" ++ info.Owner ++ "/"
    ++ info.Repo ++ ") | " ++ info.LatestCommitTime
    ++ " | " ++ formatInt info.TotalCommits
    ++ " | " ++ formatInt info.Stars
    ++ " | " ++ formatInt info.Forks
    ++ " | " ++ formatInt info.Watchers
    ++ " | " ++ formatInt info.UsedBy
    ++ " | " ++ formatInt info.Contributors
    ++ " | " ++ formatInt info.PullRequests ++ " |\n"

/-- The record of the example: owner `a`, name `b`, 5 stars. -/
def exampleRecord : RepoInfo := { Owner := "a", Repo := "b", Stars := 5 }

/-- The identifiers found on `sampleDoc`. -/
def sampleRepos : List RepoInfo :=
  [{ Owner := "alice", Repo := "bot" }, { Owner := "bob", Repo := "tool" },
   { Owner := "alice", Repo := "bot" }]

/-! ## Link extractor: proofs -/

theorem eachAnchor_eq (repos : List RepoInfo) (href : String) :
    eachAnchor repos href
      = repos ++ (if hasOwnerAndRepo href then [identifierOf href] else []) := by
  unfold eachAnchor hasOwnerAndRepo identifierOf pathSegments
  by_cases h : 2 ≤ (Split (TrimPrefix href githubPrefix) '/').length <;> simp [h]

theorem foldl_eachAnchor (hrefs : List String) (acc : List RepoInfo) :
    hrefs.foldl eachAnchor acc
      = acc ++ (hrefs.filter hasOwnerAndRepo).map identifierOf := by
  induction hrefs generalizing acc with
  | nil => simp
  | cons h t ih =>
    rw [List.foldl_cons, ih, eachAnchor_eq]
    by_cases hh : hasOwnerAndRepo h = true <;> simp [hh, List.filter_cons]

theorem scrapeGitHubRepos_of_doc (web : Web) (url body : String) (doc : Document)
    (hget : web.httpGet url = .ok body) (hdoc : web.newDocument body = .ok doc) :
    scrapeGitHubRepos web url
      = ((doc.githubHrefs.filter hasOwnerAndRepo).map identifierOf, none) := by
  simp [scrapeGitHubRepos, hget, hdoc, foldl_eachAnchor]

theorem pathSegments_after_prefix (rest : String) :
    pathSegments (githubPrefix ++ rest) = Split rest '/' := by
  have h : TrimPrefix (githubPrefix ++ rest) githubPrefix = rest := by
    unfold TrimPrefix
    have hp : githubPrefix.data.isPrefixOf (githubPrefix ++ rest).data = true := by
      rw [List.isPrefixOf_iff_prefix, String.data_append]
      exact List.prefix_append _ _
    rw [if_pos hp]
    simp [String.data_append]
  rw [pathSegments, h]

theorem identifierOf_segments (href : String) (h : hasOwnerAndRepo href = true) :
    ∃ owner repo rest, pathSegments href = owner :: repo :: rest
      ∧ identifierOf href = { Owner := owner, Repo := repo } := by
  simp only [hasOwnerAndRepo, decide_eq_true_eq] at h
  unfold identifierOf
  rcases hs : pathSegments href with _ | ⟨o, _ | ⟨r, rest⟩⟩
  · rw [hs] at h; simp at h
  · rw [hs] at h; simp at h
  · exact ⟨o, r, rest, rfl, by simp⟩

/-- C1: when the page is fetched and parsed, the link extractor returns no
error and exactly one identifier per selected `href` with at least two path
segments: as many as there are such `href`s, the `k`-th identifier being the
first two segments of the `k`-th such `href` in document order, so that a
repeated `href` gives a repeated identifier.  The segments of an `href` are
those of what follows the prefix `https://github.com/`. -/
theorem scrapeGitHubRepos_document_order (web : Web) (url body : String) (doc : Document)
    (hget : web.httpGet url = .ok body) (hdoc : web.newDocument body = .ok doc) :
    (scrapeGitHubRepos web url).2 = none
      ∧ (scrapeGitHubRepos web url).1.length = doc.githubHrefs.countP hasOwnerAndRepo
      ∧ (∀ k : Nat, (scrapeGitHubRepos web url).1[k]?
          = ((doc.githubHrefs.filter hasOwnerAndRepo)[k]?).map
              identifierOf)
      ∧ (∀ href : String, hasOwnerAndRepo href = true →
          ((scrapeGitHubRepos web url).1.count (identifierOf href)
            ≥ doc.githubHrefs.count href))
      ∧ (∀ href : String, hasOwnerAndRepo href = true →
          ∃ owner repo rest, pathSegments href = owner :: repo :: rest
            ∧ identifierOf href = { Owner := owner, Repo := repo })
      ∧ (∀ rest : String, pathSegments (githubPrefix ++ rest) = Split rest '/') := by
  rw [scrapeGitHubRepos_of_doc web url body doc hget hdoc]
  refine ⟨rfl, ?_, ?_, ?_, identifierOf_segments, pathSegments_after_prefix⟩
  · simp [List.countP_eq_length_filter]
  · intro k
    simp [List.getElem?_map]
  · intro href hh
    calc doc.githubHrefs.count href
        = (doc.githubHrefs.filter hasOwnerAndRepo).count href := by
          rw [List.count_filter hh]
      _ ≤ ((doc.githubHrefs.filter hasOwnerAndRepo).map identifierOf).count
            (identifierOf href) := List.count_le_count_map _ _ _

/-- Witness of C1 on a page with five links, two of them too short and one
repeated. -/
theorem scrapeGitHubRepos_document_order_witness :
    (scrapeGitHubRepos (constWeb sampleDoc) "u").2 = none
      ∧ (scrapeGitHubRepos (constWeb sampleDoc) "u").1.length
          = sampleDoc.githubHrefs.countP hasOwnerAndRepo
      ∧ (∀ k : Nat, (scrapeGitHubRepos (constWeb sampleDoc) "u").1[k]?
          = ((sampleDoc.githubHrefs.filter hasOwnerAndRepo)[k]?).map identifierOf)
      ∧ (∀ href : String, hasOwnerAndRepo href = true →
          ((scrapeGitHubRepos (constWeb sampleDoc) "u").1.count (identifierOf href)
            ≥ sampleDoc.githubHrefs.count href))
      ∧ (∀ href : String, hasOwnerAndRepo href = true →
          ∃ owner repo rest, pathSegments href = owner :: repo :: rest
            ∧ identifierOf href = { Owner := owner, Repo := repo })
      ∧ (∀ rest : String, pathSegments (githubPrefix ++ rest) = Split rest '/') :=
  scrapeGitHubRepos_document_order (constWeb sampleDoc) "u" "" sampleDoc rfl rfl

/-- C2: an `href` with fewer than two path segments after the prefix, such as
`https://github.com/` or `https://github.com/owner`, produces no identifier,
and the result is the one obtained from the page without that anchor: the
identifiers of the anchors before it followed by those of the anchors after
it. -/
theorem scrapeGitHubRepos_skips_short (web : Web) (url body : String) (doc : Document)
    (pre post : List String) (href : String)
    (hget : web.httpGet url = .ok body) (hdoc : web.newDocument body = .ok doc)
    (hsplit : doc.githubHrefs = pre ++ href :: post)
    (hshort : (pathSegments href).length < 2) :
    scrapeGitHubRepos web url
        = scrapeGitHubRepos (constWeb { doc with githubHrefs := pre ++ post }) url
      ∧ (scrapeGitHubRepos web url).1
          = (pre.filter hasOwnerAndRepo).map identifierOf
              ++ (post.filter hasOwnerAndRepo).map identifierOf
      ∧ (pathSegments "https://github.com/").length < 2
      ∧ (pathSegments "https://github.com/owner").length < 2 := by
  have hno : hasOwnerAndRepo href = false := by
    simp only [hasOwnerAndRepo, decide_eq_false_iff_not]
    omega
  rw [scrapeGitHubRepos_of_doc web url body doc hget hdoc,
    scrapeGitHubRepos_of_doc (constWeb { doc with githubHrefs := pre ++ post }) url ""
      { doc with githubHrefs := pre ++ post } rfl rfl, hsplit]
  refine ⟨?_, ?_, by decide, by decide⟩ <;> simp [List.filter_cons, hno]

/-- Witness of C2: the second anchor of the sample page names no repository. -/
theorem scrapeGitHubRepos_skips_short_witness :
    scrapeGitHubRepos (constWeb sampleDoc) "u"
        = scrapeGitHubRepos (constWeb { sampleDoc with githubHrefs :=
            ["https://github.com/alice/bot"] ++ ["https://github.com/bob/tool/tree/main",
              "https://github.com/", "https://github.com/alice/bot"] }) "u"
      ∧ (scrapeGitHubRepos (constWeb sampleDoc) "u").1
          = (["https://github.com/alice/bot"].filter hasOwnerAndRepo).map identifierOf
              ++ (["https://github.com/bob/tool/tree/main", "https://github.com/",
                    "https://github.com/alice/bot"].filter hasOwnerAndRepo).map identifierOf
      ∧ (pathSegments "https://github.com/").length < 2
      ∧ (pathSegments "https://github.com/owner").length < 2 :=
  scrapeGitHubRepos_skips_short (constWeb sampleDoc) "u" "" sampleDoc
    ["https://github.com/alice/bot"]
    ["https://github.com/bob/tool/tree/main", "https://github.com/",
      "https://github.com/alice/bot"]
    "https://github.com/owner" rfl rfl rfl (by decide)

/-! ## Formatting: proofs -/

theorem Sprintf_url (owner repo : String) :
    Sprintf "https://github.com/%s/%s" [Arg.str owner, Arg.str repo]
      = some ("https://github.com/" ++ owner ++ "/" ++ repo) := by
  simp [Sprintf, parseFormat, render, String.ext_iff]

/-! ## Commit pagination: proofs -/

/-- The pagination loop along a chain of pages: started at the page `pg s`
with `total` commits counted so far, when the pages `pg s, …, pg (s + k)` are
served, each naming the next one, and the last of them names no next page, the
loop ends after `k + 1` requests with the commits of these pages added. -/
theorem commitLoop_chain (listPage : Nat → Except Error (List RepositoryCommit × Response))
    (pg : Nat → Nat) (cs : Nat → List RepositoryCommit) (k : Nat) :
    ∀ (s : Nat) (total : Int) (fuel : Nat),
      (∀ j, j ≤ k → listPage (pg (s + j)) = .ok (cs (s + j), ⟨pg (s + j + 1)⟩)) →
      (∀ j, j < k → pg (s + j + 1) ≠ 0) →
      pg (s + k + 1) = 0 →
      k < fuel →
      commitLoop listPage fuel (pg s) total
        = some (.ok (total
            + ((List.range (k + 1)).map (fun j => ((cs (s + j)).length : Int))).sum)) := by
  induction k with
  | zero =>
    intro s total fuel hpages _ hlast hfuel
    obtain ⟨f, rfl⟩ : ∃ f, fuel = f + 1 := ⟨fuel - 1, by omega⟩
    have h0 := hpages 0 (Nat.le_refl 0)
    simp only [Nat.add_zero] at h0 hlast
    simp [commitLoop, h0, hlast, List.range_succ]
  | succ k ih =>
    intro s total fuel hpages hnext hlast hfuel
    obtain ⟨f, rfl⟩ : ∃ f, fuel = f + 1 := ⟨fuel - 1, by omega⟩
    have h0 := hpages 0 (Nat.zero_le _)
    have hn0 := hnext 0 (Nat.succ_pos k)
    simp only [Nat.add_zero] at h0 hn0
    have hrec := ih (s + 1) (total + ((cs s).length : Int)) f
      (fun j hj => by
        have := hpages (j + 1) (by omega)
        simpa [Nat.add_assoc, Nat.add_comm 1 j] using this)
      (fun j hj => by
        have := hnext (j + 1) (by omega)
        simpa [Nat.add_assoc, Nat.add_comm 1 j] using this)
      (by simpa [Nat.add_assoc, Nat.add_comm 1 k] using hlast)
      (by omega)
    simp only [commitLoop, h0, hn0, if_false, hrec]
    rw [List.range_succ_eq_map (k + 1)]
    simp [List.map_map, Function.comp_def, Nat.add_assoc, Nat.add_comm 1, Int.add_assoc]

/-- Whatever happens after the pagination loop, the record returned by
`getRepoInfo` carries the total computed by the loop. -/
theorem getRepoInfo_after_loop (fuel : Nat) (web : Web) (client : Client)
    (owner repo : String) (repoData : Repository) (first : RepositoryCommit)
    (rest : List RepositoryCommit) (r0 : Response) (total : Int)
    (hmeta : client.Get owner repo = .ok repoData)
    (hfirst : client.ListCommits owner repo 1 0 = .ok (first :: rest, r0))
    (hloop : commitLoop (client.ListCommits owner repo 100) fuel 0 0 = some (.ok total)) :
    ∃ info err, getRepoInfo fuel web client owner repo = some (info, err)
      ∧ info.TotalCommits = total
      ∧ info.LatestCommitTime = first.GetDate.Format := by
  unfold getRepoInfo
  simp only [hmeta, hfirst, hloop, Sprintf_url]
  cases client.ListContributors owner repo with
  | error e => exact ⟨_, _, rfl, rfl, rfl⟩
  | ok contributors =>
    cases client.ListPullRequests owner repo with
    | error e => exact ⟨_, _, rfl, rfl, rfl⟩
    | ok prs => exact ⟨_, _, rfl, rfl, rfl⟩

/-- C3: when the chain of pages requested by the loop (page 0 first, then
whatever the upstream names as next page) reaches a page without a next page
after `k + 1` requests, the loop ends (any bound above `k` is enough) and the
total is the sum of the commit counts of exactly the pages requested, empty
last page included; that total is the `TotalCommits` of the record that
`getRepoInfo` returns. -/
theorem getRepoInfo_totalCommits (fuel : Nat) (web : Web) (client : Client)
    (owner repo : String) (repoData : Repository) (first : RepositoryCommit)
    (rest : List RepositoryCommit) (r0 : Response)
    (pg : Nat → Nat) (cs : Nat → List RepositoryCommit) (k : Nat)
    (hmeta : client.Get owner repo = .ok repoData)
    (hfirst : client.ListCommits owner repo 1 0 = .ok (first :: rest, r0))
    (hstart : pg 0 = 0)
    (hpages : ∀ j, j ≤ k →
      client.ListCommits owner repo 100 (pg j) = .ok (cs j, ⟨pg (j + 1)⟩))
    (hnext : ∀ j, j < k → pg (j + 1) ≠ 0)
    (hlast : pg (k + 1) = 0)
    (hfuel : k < fuel) :
    commitLoop (client.ListCommits owner repo 100) fuel 0 0
        = some (.ok (((List.range (k + 1)).map (fun j => ((cs j).length : Int))).sum))
      ∧ ∃ info err, getRepoInfo fuel web client owner repo = some (info, err)
          ∧ info.TotalCommits
              = ((List.range (k + 1)).map (fun j => ((cs j).length : Int))).sum := by
  have hloop := commitLoop_chain (client.ListCommits owner repo 100) pg cs k 0 0 fuel
    (fun j hj => by simpa using hpages j hj)
    (fun j hj => by simpa using hnext j hj)
    (by simpa using hlast) hfuel
  simp only [hstart, Nat.zero_add, Int.zero_add] at hloop
  refine ⟨hloop, ?_⟩
  obtain ⟨info, err, h, ht, _⟩ := getRepoInfo_after_loop fuel web client owner repo repoData
    first rest r0 _ hmeta hfirst hloop
  exact ⟨info, err, h, ht⟩

/-! ## Strings and numerals: proofs -/

theorem isDigit_cases (c : Char) (h : c.isDigit = true) :
    c = '0' ∨ c = '1' ∨ c = '2' ∨ c = '3' ∨ c = '4' ∨ c = '5' ∨ c = '6' ∨ c = '7'
      ∨ c = '8' ∨ c = '9' := by
  have hb : 48 ≤ c.toNat ∧ c.toNat ≤ 57 := by
    simp only [Char.isDigit, Bool.and_eq_true, decide_eq_true_eq] at h
    exact ⟨h.1, h.2⟩
  have hc : c = Char.ofNat c.toNat := (Char.ofNat_toNat c).symm
  obtain ⟨h1, h2⟩ := hb
  generalize c.toNat = m at hc h1 h2
  subst hc
  interval_cases m <;> decide

theorem digitChar_isDigit (m : Nat) (h : m < 10) :
    (Nat.digitChar m).isDigit = true ∧ (Nat.digitChar m).toNat - '0'.toNat = m := by
  interval_cases m <;> decide

theorem isDigit_not_special (c : Char) (h : c.isDigit = true) :
    isSpace c = false ∧ c ≠ '+' ∧ c ≠ '-' ∧ c ≠ ',' := by
  rcases isDigit_cases c h with h | h | h | h | h | h | h | h | h | h <;> subst h <;> decide

theorem decimalValue_append (xs : List Char) (c : Char) :
    decimalValue (xs ++ [c]) = decimalValue xs * 10 + (c.toNat - '0'.toNat) := by
  simp [decimalValue, List.foldl_append]

/-- The digits written by `Nat.toDigitsCore` in base ten, in front of the
accumulator: a non-empty run of decimal digits whose value is the number. -/
theorem toDigitsCore_spec (fuel : Nat) :
    ∀ (n : Nat) (acc : List Char), n < fuel →
      ∃ ds, Nat.toDigitsCore 10 fuel n acc = ds ++ acc ∧ ds ≠ []
        ∧ (∀ c ∈ ds, c.isDigit = true) ∧ decimalValue ds = n := by
  induction fuel with
  | zero => intro n acc h; omega
  | succ fuel ih =>
    intro n acc hn
    obtain ⟨hd, hv⟩ := digitChar_isDigit (n % 10) (Nat.mod_lt n (by decide))
    by_cases h0 : n / 10 = 0
    · refine ⟨[Nat.digitChar (n % 10)], ?_, by simp, ?_, ?_⟩
      · simp [Nat.toDigitsCore, h0]
      · intro c hc
        simp only [List.mem_singleton] at hc
        rw [hc]; exact hd
      · have : decimalValue [Nat.digitChar (n % 10)]
            = (Nat.digitChar (n % 10)).toNat - '0'.toNat := by
          simp [decimalValue]
        rw [this, hv]
        omega
    · obtain ⟨ds, hds, _, hall, hval⟩ :=
        ih (n / 10) (Nat.digitChar (n % 10) :: acc) (by omega)
      refine ⟨ds ++ [Nat.digitChar (n % 10)], ?_, by simp, ?_, ?_⟩
      · simp [Nat.toDigitsCore, h0, hds]
      · intro c hc
        rcases List.mem_append.mp hc with hc | hc
        · exact hall c hc
        · simp only [List.mem_singleton] at hc
          rw [hc]; exact hd
      · rw [decimalValue_append, hval, hv]
        omega

theorem toDigits_spec (n : Nat) :
    Nat.toDigits 10 n ≠ [] ∧ (∀ c ∈ Nat.toDigits 10 n, c.isDigit = true)
      ∧ decimalValue (Nat.toDigits 10 n) = n := by
  obtain ⟨ds, hds, hne, hall, hval⟩ := toDigitsCore_spec (n + 1) n [] (Nat.lt_succ_self n)
  have : Nat.toDigits 10 n = ds := by simpa [Nat.toDigits] using hds
  rw [this]
  exact ⟨hne, hall, hval⟩

theorem ReplaceAll_comma_data (s : String) :
    (ReplaceAll s ',' "").data = s.data.filter (fun c => c ≠ ',') := by
  unfold ReplaceAll
  simp only
  induction s.data with
  | nil => rfl
  | cons c cs ih =>
    by_cases hc : c = ',' <;> simp [List.flatMap_cons, List.filter_cons, hc, ih]

theorem dropWhile_all_append (p : Char → Bool) (ws r : List Char)
    (h : ∀ c ∈ ws, p c = true) : (ws ++ r).dropWhile p = r.dropWhile p := by
  induction ws with
  | nil => rfl
  | cons w ws ih =>
    have hw : p w = true := h w (List.mem_cons_self _ _)
    simp only [List.cons_append, List.dropWhile_cons, hw, if_true]
    exact ih (fun c hc => h c (List.mem_cons_of_mem _ hc))

theorem dropWhile_digits (ds r : List Char) (hne : ds ≠ [])
    (hall : ∀ c ∈ ds, c.isDigit = true) :
    (ds ++ r).dropWhile isSpace = ds ++ r := by
  cases ds with
  | nil => exact absurd rfl hne
  | cons d ds =>
    have := (isDigit_not_special d (hall d (List.mem_cons_self _ _))).1
    simp [List.dropWhile_cons, this]

theorem TrimSpace_digits (s : String) (ws1 ds ws2 : List Char)
    (hs : s.data = ws1 ++ ds ++ ws2)
    (h1 : ∀ c ∈ ws1, isSpace c = true) (h2 : ∀ c ∈ ws2, isSpace c = true)
    (hne : ds ≠ []) (hall : ∀ c ∈ ds, c.isDigit = true) :
    TrimSpace s = String.mk ds := by
  unfold TrimSpace
  rw [hs, List.append_assoc, dropWhile_all_append isSpace ws1 _ h1,
    dropWhile_digits ds ws2 hne hall, List.reverse_append,
    dropWhile_all_append isSpace ws2.reverse _ (fun c hc => h2 c (List.mem_reverse.mp hc))]
  have := dropWhile_digits ds.reverse [] (by simpa using hne)
    (fun c hc => hall c (List.mem_reverse.mp hc))
  rw [List.append_nil] at this
  rw [this, List.reverse_reverse]

theorem Atoi_digits (ds : List Char) (hne : ds ≠ []) (hall : ∀ c ∈ ds, c.isDigit = true)
    (hrange : decimalValue ds < 2 ^ 63) :
    Atoi (String.mk ds) = ((decimalValue ds : Int), none) := by
  cases ds with
  | nil => exact absurd rfl hne
  | cons d ds =>
    obtain ⟨_, hp, hm, _⟩ := isDigit_not_special d (hall d (List.mem_cons_self _ _))
    have hall2 : (d :: ds).all Char.isDigit = true := by
      rw [List.all_eq_true]; exact hall
    have hr : ¬ (2 ^ 63 ≤ decimalValue (d :: ds)) := by omega
    have h63 : (2 : Nat) ^ 63 = 9223372036854775808 := by norm_num
    simp [Atoi, hp, hm, hall2]
    omega

/-! ## Used-by count: proofs -/

/-- C10: when the counter text, once its commas are dropped, is the decimal
numeral of a natural number `n` below `2 ^ 63` between two runs of white space,
`scrapeUsedByCount` returns `n` and no error. -/
theorem scrapeUsedByCount_parses (web : Web) (url body : String) (doc : Document)
    (n : Nat) (ws1 ws2 : List Char)
    (hget : web.httpGet url = .ok body) (hdoc : web.newDocument body = .ok doc)
    (hrange : n < 2 ^ 63)
    (htext : doc.dependentsCounterText.data.filter (fun c => c ≠ ',')
      = ws1 ++ Nat.toDigits 10 n ++ ws2)
    (h1 : ∀ c ∈ ws1, isSpace c = true) (h2 : ∀ c ∈ ws2, isSpace c = true) :
    scrapeUsedByCount web url = ((n : Int), none) := by
  obtain ⟨hne, hall, hval⟩ := toDigits_spec n
  have hclean : TrimSpace (ReplaceAll doc.dependentsCounterText ',' "")
      = String.mk (Nat.toDigits 10 n) :=
    TrimSpace_digits _ ws1 _ ws2 (by rw [ReplaceAll_comma_data, htext]) h1 h2 hne hall
  have hatoi := Atoi_digits (Nat.toDigits 10 n) hne hall (by rw [hval]; exact hrange)
  rw [hval] at hatoi
  have hnonempty : String.mk (Nat.toDigits 10 n) ≠ "" := by
    intro h
    exact hne (congrArg String.data h)
  simp [scrapeUsedByCount, hget, hdoc, hclean, hatoi, hnonempty]

/-- Witness of C10: the counter ` 1,234 ` reads 1234. -/
theorem scrapeUsedByCount_parses_witness :
    scrapeUsedByCount (counterWeb " 1,234 ") "u" = (((1234 : Nat) : Int), none) :=
  scrapeUsedByCount_parses (counterWeb " 1,234 ") "u" ""
    { githubHrefs := [], dependentsCounterText := " 1,234 " } 1234 [' '] [' ']
    rfl rfl (by norm_num) (by decide) (by decide) (by decide)

/-! ## Repository info fetcher: proofs -/

/-- Witness of C3 on a repository whose commits come in three pages, the last
one empty. -/
theorem getRepoInfo_totalCommits_witness :
    commitLoop (sampleClient.ListCommits "alice" "bot" 100) 3 0 0
        = some (.ok (((List.range (2 + 1)).map
            (fun j => ((sampleCommitsAt j).length : Int))).sum))
      ∧ ∃ info err, getRepoInfo 3 (counterWeb "12") sampleClient "alice" "bot"
            = some (info, err)
          ∧ info.TotalCommits
              = ((List.range (2 + 1)).map
                  (fun j => ((sampleCommitsAt j).length : Int))).sum :=
  getRepoInfo_totalCommits 3 (counterWeb "12") sampleClient "alice" "bot"
    { StargazersCount := some 5, ForksCount := some 2, SubscribersCount := some 3 }
    ⟨some ⟨2024, 5, 17⟩⟩ [] ⟨2⟩ samplePageAt sampleCommitsAt 2 rfl rfl rfl
    (by intro j hj; interval_cases j <;> rfl)
    (by intro j hj; interval_cases j <;> decide)
    rfl (by decide)

theorem usedBy_of_unavailable (web : Web) (url : String) (h : UsedByUnavailable web url) :
    (match scrapeUsedByCount web url with
      | (_, some _) => (0 : Int)
      | (usedBy, none) => usedBy) = 0 := by
  cases hget : web.httpGet url with
  | error e => simp [scrapeUsedByCount, hget]
  | ok body =>
    cases hdoc : web.newDocument body with
    | error e => simp [scrapeUsedByCount, hget, hdoc]
    | ok doc =>
      have h' : doc.dependentsCounterText = ""
          ∨ (Atoi (cleanCounter doc.dependentsCounterText)).2 ≠ none := by
        simpa [UsedByUnavailable, hget, hdoc] using h
      simp only [scrapeUsedByCount, hget, hdoc]
      rcases h' with h' | h'
      · rw [h']
        rfl
      · by_cases hempty : TrimSpace (ReplaceAll doc.dependentsCounterText ',' "") = ""
        · simp [hempty]
        · simp only [hempty, if_false]
          unfold cleanCounter at h'
          rcases hA : Atoi (TrimSpace (ReplaceAll doc.dependentsCounterText ',' ""))
            with ⟨u, e⟩
          rw [hA] at h'
          cases e with
          | none => exact absurd rfl h'
          | some e => rfl

/-- C5: when the metadata, commit, contributor and pull-request calls all
succeed and the used-by count cannot be read (the page cannot be fetched or
parsed, the counter is absent, or its text is not an integer), `getRepoInfo`
returns no error and a record whose `UsedBy` is 0. -/
theorem getRepoInfo_usedBy_fallback (fuel : Nat) (web : Web) (client : Client)
    (owner repo : String) (repoData : Repository) (commits : List RepositoryCommit)
    (r0 : Response) (total : Int) (contributors : List Contributor)
    (prs : List PullRequest)
    (hmeta : client.Get owner repo = .ok repoData)
    (hfirst : client.ListCommits owner repo 1 0 = .ok (commits, r0))
    (hloop : commitLoop (client.ListCommits owner repo 100) fuel 0 0 = some (.ok total))
    (hcontrib : client.ListContributors owner repo = .ok contributors)
    (hprs : client.ListPullRequests owner repo = .ok prs)
    (hunavail : UsedByUnavailable web (repoPage owner repo)) :
    ∃ info, getRepoInfo fuel web client owner repo = some (info, none)
      ∧ info.UsedBy = 0 := by
  unfold getRepoInfo
  cases commits with
  | nil => simp only [hmeta, hfirst]; exact ⟨_, rfl, rfl⟩
  | cons c cs =>
    simp only [hmeta, hfirst, hloop, hcontrib, hprs, Sprintf_url]
    exact ⟨_, rfl, usedBy_of_unavailable web _ hunavail⟩

/-- Witness of C5: a counter that reads `n/a`. -/
theorem getRepoInfo_usedBy_fallback_witness :
    ∃ info, getRepoInfo 3 (counterWeb "n/a") sampleClient "alice" "bot" = some (info, none)
      ∧ info.UsedBy = 0 :=
  getRepoInfo_usedBy_fallback 3 (counterWeb "n/a") sampleClient "alice" "bot"
    { StargazersCount := some 5, ForksCount := some 2, SubscribersCount := some 3 }
    [⟨some ⟨2024, 5, 17⟩⟩] ⟨2⟩ 3 [⟨1⟩, ⟨2⟩] [⟨7⟩] rfl rfl rfl rfl rfl
    (by simp [UsedByUnavailable, counterWeb, constWeb]; decide)

/-- C4, at the input on which it fails: the metadata call succeeds with 5
stars and the first commit listing succeeds with no commit; `getRepoInfo`
returns no error and a record whose star count is 0 and whose date is empty. -/
theorem getRepoInfo_empty_commits_unpopulated :
    ∃ repoData info,
      emptyCommitsClient.Get "alice" "bot" = .ok repoData
        ∧ repoData.GetStargazersCount = 5
        ∧ getRepoInfo 3 (counterWeb "12") emptyCommitsClient "alice" "bot" = some (info, none)
        ∧ info.Stars = 0 ∧ info.LatestCommitTime = "" ∧ info.Forks = 0 ∧ info.Watchers = 0 :=
  ⟨_, _, rfl, rfl, rfl, rfl, rfl, rfl, rfl⟩

/-! ## Sign of the counts: proofs -/

theorem commitLoop_nonneg (listPage : Nat → Except Error (List RepositoryCommit × Response))
    (fuel : Nat) :
    ∀ (page : Nat) (total t : Int), 0 ≤ total →
      commitLoop listPage fuel page total = some (.ok t) → 0 ≤ t := by
  induction fuel with
  | zero => intro page total t _ h; simp [commitLoop] at h
  | succ fuel ih =>
    intro page total t htotal h
    unfold commitLoop at h
    cases hp : listPage page with
    | error e => simp [hp] at h
    | ok r =>
      obtain ⟨commits, resp⟩ := r
      simp only [hp] at h
      by_cases hn : resp.NextPage = 0
      · simp only [hn, if_true, Option.some.injEq, Except.ok.injEq] at h
        omega
      · simp only [hn, if_false] at h
        exact ih _ _ t (by omega) h

theorem Atoi_nonneg (s : String) (u : Int) (h : Atoi s = (u, none))
    (hsign : s.data.head? ≠ some '-') : 0 ≤ u := by
  unfold Atoi at h
  cases hs : s.data with
  | nil => simp [hs] at h
  | cons c rest =>
    have hc : c ≠ '-' := by
      intro hc
      apply hsign
      rw [hs, hc]
      rfl
    simp only [hs, hc, or_false, if_false] at h
    split_ifs at h <;> simp only [Prod.mk.injEq] at h
    all_goals first
      | (rw [← h.1]; exact Int.natCast_nonneg _)
      | simp at h

theorem scrapeUsedByCount_nonneg (web : Web) (url : String)
    (hsign : ∀ body doc, web.httpGet url = .ok body → web.newDocument body = .ok doc →
      (cleanCounter doc.dependentsCounterText).data.head? ≠ some '-') :
    0 ≤ (match scrapeUsedByCount web url with
          | (_, some _) => (0 : Int)
          | (usedBy, none) => usedBy) := by
  cases hget : web.httpGet url with
  | error e => simp [scrapeUsedByCount, hget]
  | ok body =>
    cases hdoc : web.newDocument body with
    | error e => simp [scrapeUsedByCount, hget, hdoc]
    | ok doc =>
      have hs := hsign body doc hget hdoc
      unfold cleanCounter at hs
      simp only [scrapeUsedByCount, hget, hdoc]
      by_cases hempty : TrimSpace (ReplaceAll doc.dependentsCounterText ',' "") = ""
      · simp [hempty]
      · simp only [hempty, if_false]
        rcases hA : Atoi (TrimSpace (ReplaceAll doc.dependentsCounterText ',' ""))
          with ⟨u, e⟩
        cases e with
        | none => exact Atoi_nonneg _ u hA hs
        | some e => exact Int.le_refl 0

/-- C9, as the code has it: for a record returned without error, when the
star, fork and subscriber numbers of the metadata are non-negative and the
counter text, once cleaned of commas and surrounding white space, does not
begin with a minus sign, every count of the record is non-negative. -/
theorem getRepoInfo_counts_nonneg (fuel : Nat) (web : Web) (client : Client)
    (owner repo : String) (info : RepoInfo)
    (hres : getRepoInfo fuel web client owner repo = some (info, none))
    (hmeta : ∀ rd, client.Get owner repo = .ok rd →
      0 ≤ rd.GetStargazersCount ∧ 0 ≤ rd.GetForksCount ∧ 0 ≤ rd.GetSubscribersCount)
    (hsign : ∀ body doc, web.httpGet (repoPage owner repo) = .ok body →
      web.newDocument body = .ok doc →
      (cleanCounter doc.dependentsCounterText).data.head? ≠ some '-') :
    0 ≤ info.TotalCommits ∧ 0 ≤ info.Stars ∧ 0 ≤ info.Forks ∧ 0 ≤ info.Watchers
      ∧ 0 ≤ info.UsedBy ∧ 0 ≤ info.Contributors ∧ 0 ≤ info.PullRequests := by
  unfold getRepoInfo at hres
  cases hget : client.Get owner repo with
  | error e => simp [hget] at hres
  | ok rd =>
    obtain ⟨hs, hf, hw⟩ := hmeta rd hget
    cases hfirst : client.ListCommits owner repo 1 0 with
    | error e => simp [hget, hfirst] at hres
    | ok r =>
      obtain ⟨commits, r0⟩ := r
      cases commits with
      | nil =>
        simp only [hget, hfirst, Option.some.injEq, Prod.mk.injEq, and_true] at hres
        subst hres
        simp
      | cons c cs =>
        simp only [hget, hfirst] at hres
        cases hloop : commitLoop (client.ListCommits owner repo 100) fuel 0 0 with
        | none => simp [hloop] at hres
        | some res =>
          cases res with
          | error e => simp [hloop] at hres
          | ok total =>
            have ht := commitLoop_nonneg _ fuel 0 0 total (Int.le_refl 0) hloop
            simp only [hloop] at hres
            cases hcontrib : client.ListContributors owner repo with
            | error e => simp [hcontrib] at hres
            | ok contributors =>
              simp only [hcontrib] at hres
              cases hprs : client.ListPullRequests owner repo with
              | error e => simp [hprs] at hres
              | ok prs =>
                simp only [hprs, Sprintf_url, Option.some.injEq, Prod.mk.injEq,
                  and_true] at hres
                subst hres
                exact ⟨ht, hs, hf, hw, scrapeUsedByCount_nonneg web _ hsign,
                  Int.natCast_nonneg _, Int.natCast_nonneg _⟩

/-- Witness of C9: a counter that reads `1,234`. -/
theorem getRepoInfo_counts_nonneg_witness :
    getRepoInfo 3 (counterWeb "1,234") sampleClient "alice" "bot" = some (sampleRecord, none)
      ∧ (0 ≤ sampleRecord.TotalCommits ∧ 0 ≤ sampleRecord.Stars ∧ 0 ≤ sampleRecord.Forks
        ∧ 0 ≤ sampleRecord.Watchers ∧ 0 ≤ sampleRecord.UsedBy
        ∧ 0 ≤ sampleRecord.Contributors ∧ 0 ≤ sampleRecord.PullRequests) :=
  ⟨by decide,
    getRepoInfo_counts_nonneg 3 (counterWeb "1,234") sampleClient "alice" "bot" sampleRecord
      (by decide)
      (by intro rd h; cases h; decide)
      (by intro body doc _ h; cases h; decide)⟩

/-- C9 fails as stated: with 5 stars, 2 forks and 3 subscribers in the
metadata and the text `-5` in the dependents counter, `getRepoInfo` returns no
error and a record whose `UsedBy` is negative. -/
theorem getRepoInfo_usedBy_negative :
    ∃ info, getRepoInfo 3 (counterWeb "-5") sampleClient "alice" "bot" = some (info, none)
      ∧ info.Stars = 5 ∧ info.Forks = 2 ∧ info.Watchers = 3
      ∧ info.UsedBy = -5 ∧ info.UsedBy < 0 :=
  ⟨_, rfl, rfl, rfl, rfl, rfl, by decide⟩

/-! ## Table renderer: proofs -/

theorem Sprintf_row (info : RepoInfo) :
    Sprintf rowFormat (rowArgs info) = some (rowText info) := by
  simp [Sprintf, rowFormat, rowArgs, rowText, parseFormat, render, String.ext_iff]

theorem foldlM_Printf_rows (infos : List RepoInfo) :
    ∀ out : List String,
      infos.foldlM (fun out info => Printf out rowFormat (rowArgs info)) out
        = some (out ++ infos.map rowText) := by
  induction infos with
  | nil => intro out; simp
  | cons info infos ih =>
    intro out
    have hstep : Printf out rowFormat (rowArgs info) = some (out ++ [rowText info]) := by
      simp [Printf, Sprintf_row]
    rw [List.foldlM_cons, hstep]
    simp [ih]

theorem printMarkdownTable_eq (infos : List RepoInfo) :
    printMarkdownTable infos
      = some ((tableHeader ++ "\n") :: (tableSeparator ++ "\n") :: infos.map rowText) := by
  simp [printMarkdownTable, Println, foldlM_Printf_rows]

/-- C7: for a list of `n` records the renderer writes `n + 2` lines: the
header, the separator, then at position `i + 2` the row that `Printf` formats
from the `i`-th record; for the empty list, the header and the separator
only. -/
theorem printMarkdownTable_structure (infos : List RepoInfo) :
    ∃ out, printMarkdownTable infos = some out
      ∧ out.length = infos.length + 2
      ∧ out[0]? = some (tableHeader ++ "\n")
      ∧ out[1]? = some (tableSeparator ++ "\n")
      ∧ (∀ i, out[i + 2]? = (infos[i]?).bind (fun info => Sprintf rowFormat (rowArgs info)))
      ∧ printMarkdownTable [] = some [tableHeader ++ "\n", tableSeparator ++ "\n"] := by
  refine ⟨_, printMarkdownTable_eq infos, by simp, by simp, by simp, ?_,
    printMarkdownTable_eq []⟩
  intro i
  cases h : infos[i]? with
  | none => simp [h]
  | some info => simp [h, Sprintf_row]

/-- C8: the row that `Printf` formats from a record is `| [o/r](https://github.com/o/r) | `
followed by the latest commit date and the seven counts in the order of the
header (total commits, stars, forks, watchers, used by, contributors, pull
requests), separated by ` | `, each count in decimal, and closed by ` |` and a
line break; for owner `a`, name `b` and 5 stars the row contains
`[a/b](https://github.com/a/b)` and its fourth column, the one under `Stars`,
is the literal 5. -/
theorem printMarkdownTable_row_content (info : RepoInfo) :
    Sprintf rowFormat (rowArgs info)
        = some ("| [" ++ info.Owner ++ "/" ++ info.Repo ++ "](https://github.com/"
            ++ info.Owner ++ "/" ++ info.Repo ++ ") | "
            ++ " | ".intercalate
                [info.LatestCommitTime, formatInt info.TotalCommits, formatInt info.Stars,
                 formatInt info.Forks, formatInt info.Watchers, formatInt info.UsedBy,
                 formatInt info.Contributors, formatInt info.PullRequests]
            ++ " |\n")
      ∧ printMarkdownTable [info]
          = (Sprintf rowFormat (rowArgs info)).map
              (fun row => [tableHeader ++ "\n", tableSeparator ++ "\n", row])
      ∧ (∀ n : Nat, (∀ c ∈ (formatInt (n : Int)).data, c.isDigit = true)
          ∧ decimalValue (formatInt (n : Int)).data = n)
      ∧ Split tableHeader '|'
          = ["", " Repository ", " Latest Commit ", " Total Commits ", " Stars ", " Forks ",
             " Watchers ", " Used by ", " Contributors ", " Pull Requests ", ""]
      ∧ Sprintf rowFormat (rowArgs exampleRecord)
          = some ("| " ++ "[a/b](https://github.com/a/b)" ++ " |  | 0 | 5 | 0 | 0 | 0 | 0 | 0 |\n")
      ∧ (Sprintf rowFormat (rowArgs exampleRecord)).map (fun row => Split row '|')
          = some ["", " [a/b](https://github.com/a/b) ", "  ", " 0 ", " 5 ", " 0 ", " 0 ", " 0 ",
                  " 0 ", " 0 ", "\n"] := by
  refine ⟨?_, ?_, ?_, by decide, by decide, by decide⟩
  · rw [Sprintf_row]
    simp [rowText, String.intercalate, String.intercalate.go, String.ext_iff]
  · rw [printMarkdownTable_eq, Sprintf_row]
    rfl
  · intro n
    have h := toDigits_spec n
    exact ⟨h.2.1, h.2.2⟩

/-! ## Main loop: proofs -/

/-- The step of the accumulation loop, in terms of the record contributed. -/
theorem mainLoop_step (fuel : Nat) (web : Web) (client : Client) (acc : List RepoInfo)
    (repo : RepoInfo) (h : getRepoInfo fuel web client repo.Owner repo.Repo ≠ none) :
    (match getRepoInfo fuel web client repo.Owner repo.Repo with
      | none => none
      | some (_, some _) => some acc
      | some (info, none) => some (acc ++ [info]))
      = some (acc ++ (fetchedRecord fuel web client repo).toList) := by
  unfold fetchedRecord
  cases hg : getRepoInfo fuel web client repo.Owner repo.Repo with
  | none => exact absurd hg h
  | some r =>
    obtain ⟨info, err⟩ := r
    cases err <;> simp

theorem mainLoop_foldlM (fuel : Nat) (web : Web) (client : Client) (repos : List RepoInfo) :
    ∀ acc : List RepoInfo,
      (∀ r ∈ repos, getRepoInfo fuel web client r.Owner r.Repo ≠ none) →
      repos.foldlM
          (fun repoInfos repo =>
            match getRepoInfo fuel web client repo.Owner repo.Repo with
            | none => none
            | some (_, some _) => some repoInfos
            | some (info, none) => some (repoInfos ++ [info]))
          acc
        = some (acc ++ repos.filterMap (fetchedRecord fuel web client)) := by
  induction repos with
  | nil => intro acc _; simp
  | cons r rs ih =>
    intro acc hterm
    rw [List.foldlM_cons, mainLoop_step fuel web client acc r (hterm r (List.mem_cons_self _ _))]
    simp only [Option.bind_eq_bind, Option.some_bind]
    rw [ih _ (fun x hx => hterm x (List.mem_cons_of_mem _ hx))]
    cases hf : fetchedRecord fuel web client r <;> simp [List.filterMap_cons, hf]

/-- The pagination loop along a chain of pages that breaks: started at the page
`pg s`, when the pages `pg s, …, pg (s + k - 1)` are served, each naming the
next one, and the request for `pg (s + k)` answers an error, the loop ends
after `k + 1` requests with that error. -/
theorem commitLoop_chain_error (listPage : Nat → Except Error (List RepositoryCommit × Response))
    (pg : Nat → Nat) (cs : Nat → List RepositoryCommit) (err : Error) (k : Nat) :
    ∀ (s : Nat) (total : Int) (fuel : Nat),
      (∀ j, j < k → listPage (pg (s + j)) = .ok (cs (s + j), ⟨pg (s + j + 1)⟩)) →
      (∀ j, j < k → pg (s + j + 1) ≠ 0) →
      listPage (pg (s + k)) = .error err →
      k < fuel →
      commitLoop listPage fuel (pg s) total = some (.error err) := by
  induction k with
  | zero =>
    intro s total fuel _ _ hfail hfuel
    obtain ⟨f, rfl⟩ : ∃ f, fuel = f + 1 := ⟨fuel - 1, by omega⟩
    simp only [Nat.add_zero] at hfail
    simp [commitLoop, hfail]
  | succ k ih =>
    intro s total fuel hpages hnext hfail hfuel
    obtain ⟨f, rfl⟩ : ∃ f, fuel = f + 1 := ⟨fuel - 1, by omega⟩
    have h0 := hpages 0 (Nat.succ_pos k)
    have hn0 := hnext 0 (Nat.succ_pos k)
    simp only [Nat.add_zero] at h0 hn0
    have hrec := ih (s + 1) (total + ((cs s).length : Int)) f
      (fun j hj => by
        have := hpages (j + 1) (by omega)
        simpa [Nat.add_assoc, Nat.add_comm 1 j] using this)
      (fun j hj => by
        have := hnext (j + 1) (by omega)
        simpa [Nat.add_assoc, Nat.add_comm 1 j] using this)
      (by simpa [Nat.add_assoc, Nat.add_comm 1 k] using hfail)
      (by omega)
    simp only [commitLoop, h0, hn0, if_false, hrec]

/-- A failing metadata, commit, contributor or pull-request call makes
`getRepoInfo` return an error. -/
theorem getRepoInfo_of_fetchFails (fuel : Nat) (web : Web) (client : Client)
    (owner repo : String) (h : FetchFails fuel client owner repo) :
    ∃ info err, getRepoInfo fuel web client owner repo = some (info, some err) := by
  cases h with
  | metadata err hmeta =>
    unfold getRepoInfo
    simp only [hmeta]
    exact ⟨_, _, rfl⟩
  | latestCommit repoData err hmeta hfirst =>
    unfold getRepoInfo
    simp only [hmeta, hfirst]
    exact ⟨_, _, rfl⟩
  | commitPage repoData first rest r0 pg cs k err hmeta hfirst hstart hpages hnext hfail hfuel =>
    have hloop := commitLoop_chain_error (client.ListCommits owner repo 100) pg cs err k 0 0
      fuel (fun j hj => by simpa using hpages j hj) (fun j hj => by simpa using hnext j hj)
      (by simpa using hfail) hfuel
    rw [hstart] at hloop
    unfold getRepoInfo
    simp only [hmeta, hfirst, hloop]
    exact ⟨_, _, rfl⟩
  | contributors repoData first rest r0 pg cs k err hmeta hfirst hstart hpages hnext hlast
      hfuel hcontrib =>
    have hloop := commitLoop_chain (client.ListCommits owner repo 100) pg cs k 0 0 fuel
      (fun j hj => by simpa using hpages j hj) (fun j hj => by simpa using hnext j hj)
      (by simpa using hlast) hfuel
    rw [hstart] at hloop
    unfold getRepoInfo
    simp only [hmeta, hfirst, hloop, hcontrib]
    exact ⟨_, _, rfl⟩
  | pullRequests repoData first rest r0 pg cs k contributors err hmeta hfirst hstart hpages
      hnext hlast hfuel hcontrib hprs =>
    have hloop := commitLoop_chain (client.ListCommits owner repo 100) pg cs k 0 0 fuel
      (fun j hj => by simpa using hpages j hj) (fun j hj => by simpa using hnext j hj)
      (by simpa using hlast) hfuel
    rw [hstart] at hloop
    unfold getRepoInfo
    simp only [hmeta, hfirst, hloop, hcontrib, hprs]
    exact ⟨_, _, rfl⟩

/-- C6: when every call of `getRepoInfo` returns, the records handed to the
table renderer are those of the identifiers for which it returned no error, in
the order of the identifiers; an identifier for which the upstream answers an
error to the metadata call, to a commit listing (the latest commit or any page
requested by the pagination), to the contributor call or to the pull-request
call contributes no record, and the identifiers before and after it contribute
as they do without it. -/
theorem main_records_in_order (fuel : Nat) (web : Web) (client : Client)
    (repos : List RepoInfo)
    (hscrape : scrapeGitHubRepos web samplesPage = (repos, none))
    (hterm : ∀ r ∈ repos, getRepoInfo fuel web client r.Owner r.Repo ≠ none) :
    mainLoop fuel web client repos = some (repos.filterMap (fetchedRecord fuel web client))
      ∧ main fuel web client
          = (printMarkdownTable (repos.filterMap (fetchedRecord fuel web client))).map Except.ok
      ∧ (∀ r : RepoInfo, FetchFails fuel client r.Owner r.Repo →
          fetchedRecord fuel web client r = none)
      ∧ (∀ (pre post : List RepoInfo) (bad : RepoInfo), repos = pre ++ bad :: post →
          FetchFails fuel client bad.Owner bad.Repo →
          mainLoop fuel web client repos
            = some (pre.filterMap (fetchedRecord fuel web client)
                ++ post.filterMap (fetchedRecord fuel web client))) := by
  have hloop : mainLoop fuel web client repos
      = some (repos.filterMap (fetchedRecord fuel web client)) := by
    have := mainLoop_foldlM fuel web client repos [] hterm
    simpa [mainLoop] using this
  have hfail : ∀ r : RepoInfo, FetchFails fuel client r.Owner r.Repo →
      fetchedRecord fuel web client r = none := by
    intro r hr
    obtain ⟨info, err, h⟩ := getRepoInfo_of_fetchFails fuel web client r.Owner r.Repo hr
    simp [fetchedRecord, h]
  refine ⟨hloop, ?_, hfail, ?_⟩
  · unfold main
    unfold samplesPage at hscrape
    simp only [hscrape, hloop]
  · intro pre post bad hsplit hbad
    rw [hloop, hsplit]
    simp [List.filterMap_append, List.filterMap_cons, hfail bad hbad]

/-- Witness of C6: three identifiers, the second of which fails, once because
its metadata call fails and once because its request for the second page of
commits fails; in both runs the two others give their records, in order. -/
theorem main_records_in_order_witness :
    (mainLoop 3 (constWeb sampleDoc) flakyClient sampleRepos
        = some (sampleRepos.filterMap (fetchedRecord 3 (constWeb sampleDoc) flakyClient))
      ∧ sampleRepos.filterMap (fetchedRecord 3 (constWeb sampleDoc) flakyClient)
          = [{ sampleRecord with UsedBy := 0 }, { sampleRecord with UsedBy := 0 }]
      ∧ FetchFails 3 flakyClient "bob" "tool")
    ∧ (mainLoop 3 (constWeb sampleDoc) brokenPageClient sampleRepos
        = some ([{ sampleRecord with UsedBy := 0 }].filterMap
              (fetchedRecord 3 (constWeb sampleDoc) brokenPageClient)
            ++ [{ sampleRecord with UsedBy := 0 }].filterMap
              (fetchedRecord 3 (constWeb sampleDoc) brokenPageClient))
      ∧ mainLoop 3 (constWeb sampleDoc) brokenPageClient sampleRepos
          = some [{ sampleRecord with UsedBy := 0 }, { sampleRecord with UsedBy := 0 }]
      ∧ FetchFails 3 brokenPageClient "bob" "tool") :=
  have hbroken : FetchFails 3 brokenPageClient "bob" "tool" :=
    FetchFails.commitPage
      { StargazersCount := some 5, ForksCount := some 2, SubscribersCount := some 3 }
      ⟨some ⟨2024, 5, 17⟩⟩ [] ⟨2⟩ samplePageAt sampleCommitsAt 1 ⟨"502 Bad Gateway"⟩
      rfl rfl rfl (by intro j hj; interval_cases j; rfl)
      (by intro j hj; interval_cases j; decide) rfl (by decide)
  ⟨⟨(main_records_in_order 3 (constWeb sampleDoc) flakyClient sampleRepos
        (by decide) (by decide)).1,
      by decide, FetchFails.metadata ⟨"404 Not Found"⟩ rfl⟩,
    ⟨(main_records_in_order 3 (constWeb sampleDoc) brokenPageClient sampleRepos
        (by decide) (by decide)).2.2.2
        [{ Owner := "alice", Repo := "bot" }] [{ Owner := "alice", Repo := "bot" }]
        { Owner := "bob", Repo := "tool" } rfl hbroken,
      by decide, hbroken⟩⟩

end LibScout
